import Mathlib

/-!
Verification of the segment cataloging, merge and batch-control logic of
`dvd_transcoder.py` (videomachine repository).

The Python code is shallowly embedded: Python strings are `String`/`List Char`,
file contents are `List Nat` (byte values), external processes and the
filesystem are oracles passed in explicitly, and code that can raise an
uncaught exception returns `Except Unit`.  The string primitives the script
uses (`str.split` on a one-character separator, `int()`, `os.path.normpath`,
`os.path.basename`, `os.path.splitext`, `str.replace`, the `in` substring
test, `list.sort`) are implemented below following CPython semantics for the
POSIX (`os.sep = "/"`) configurations the script supports on Linux/macOS.
-/

namespace DVDT

/-- Python `s.split(sep)` for a one-character separator: split at every
occurrence, keeping empty fields (`"".split("_") == [""]`). -/
def splitChar (sep : Char) : List Char → List (List Char)
  | [] => [[]]
  | c :: cs =>
    match splitChar sep cs with
    | [] => [[c]]
    | h :: t => if c = sep then [] :: h :: t else (c :: h) :: t

/-- The whitespace characters `int()` strips (the ASCII ones; no other
whitespace appears in the filename tokens the script builds). -/
def isPySpace (c : Char) : Bool :=
  c == ' ' || c == '\t' || c == '\n' || c == '\r' || c == '\x0b' || c == '\x0c'

/-- Value of a nonempty all-ASCII-digit string. -/
def digitsVal? (cs : List Char) : Option Nat :=
  if cs = [] then none
  else if cs.all (·.isDigit) then
    some (cs.foldl (fun a c => 10 * a + (c.toNat - 48)) 0)
  else none

/-- Python `int(s)`: optional surrounding whitespace, an optional sign, then
at least one digit.  (Digit-group underscores cannot occur here: every token
passed to `int` by the script was produced by splitting on `"_"`.)  `none`
models the `ValueError` raised on any other input. -/
def pyInt? (s : List Char) : Option Int :=
  let t := ((s.dropWhile isPySpace).reverse.dropWhile isPySpace).reverse
  match t with
  | '+' :: r => (digitsVal? r).map Int.ofNat
  | '-' :: r => (digitsVal? r).map fun n => -(n : Int)
  | r => (digitsVal? r).map Int.ofNat

/-- Outcome of examining one directory-walk filename, from the candidate test
and token parsing in `py_move_vobs_to_local` (and identically
`cat_move_vobs_to_local`):
`fname.split("_")[0] == "VTS" and fname.split(".")[-1] == "VOB"`, then
`int(fname.split("_")[-1].split(".")[0])` and `int(fname.split("_")[1])`.
`valueError` records that `int()` raises (uncaught in the script). -/
inductive ParseResult where
  | noMatch
  | valueError
  | seg (disc vob : Int)
deriving DecidableEq, Repr

/-- The candidate test and token parse applied to each walked filename. -/
def parseVts (fname : String) : ParseResult :=
  let us := splitChar '_' fname.data
  let ds := splitChar '.' fname.data
  if us.headD [] = "VTS".data ∧ ds.getLastD [] = "VOB".data then
    let discTok := us.getD 1 []
    let vobTok := (splitChar '.' (us.getLastD [])).headD []
    match pyInt? vobTok, pyInt? discTok with
    | some v, some d => .seg d v
    | _, _ => .valueError
  else .noMatch

/-- One step of CPython `posixpath.normpath`'s component filter. -/
def normComps (initialSlashes : Nat) (comps : List (List Char)) :
    List (List Char) :=
  comps.foldl
    (fun acc comp =>
      if comp = [] ∨ comp = ['.'] then acc
      else if comp ≠ ['.', '.'] ∨ (initialSlashes = 0 ∧ acc = []) ∨
          (acc ≠ [] ∧ acc.getLastD [] = ['.', '.']) then acc ++ [comp]
      else if acc ≠ [] then acc.dropLast
      else acc)
    []

/-- CPython `posixpath.normpath`. -/
def pyNormpathChars (p : List Char) : List Char :=
  if p = [] then ['.']
  else
    let initialSlashes : Nat :=
      if p.take 2 = ['/', '/'] ∧ p.take 3 ≠ ['/', '/', '/'] then 2
      else if p.headD ' ' = '/' then 1
      else 0
    let comps := normComps initialSlashes (splitChar '/' p)
    let joined := List.replicate initialSlashes '/' ++ List.intercalate ['/'] comps
    if joined = [] then ['.'] else joined

def pyNormpath (s : String) : String := (pyNormpathChars s.data).asString

/-- `os.path.normpath(f"{dir_name}{os.sep}{fname}")` on POSIX. -/
def mkPath (dir fname : String) : String := pyNormpath (dir ++ "/" ++ fname)

/-- Lexicographic code-point comparison, Python `str` `<=`. -/
def lexLe : List Char → List Char → Bool
  | [], _ => true
  | _ :: _, [] => false
  | a :: as, b :: bs => if a = b then lexLe as bs else decide (a < b)

def strLe (a b : String) : Bool := lexLe a.data b.data

/-- `strLe` as a relation, for the sortedness lemmas. -/
def StrLeP (a b : String) : Prop := strLe a b = true

instance : DecidableRel StrLeP := fun a b => instDecidableEqBool (strLe a b) true

/-- Python `list.sort()` on a list of strings.  Python's sort is a stable
sort for `<`; since the lexicographic order on strings is total and
antisymmetric, every sorting algorithm produces the same list, embedded
here as insertion sort. -/
def pySort (l : List String) : List String := l.insertionSort StrLeP

/-- The mutable state of the walk loop in `py_move_vobs_to_local`:
`input_voblist`, `input_disclist`, `last_disc_num` (seeded at 1). -/
structure BuildState where
  voblist : List String
  disclist : List (List String)
  last : Int
deriving DecidableEq, Repr

def initState : BuildState := ⟨[], [], 1⟩

/-- The body of the walk loop applied to one matched file with path `p`,
disc number `d` and unit index `v`.  Mirrors lines 764-777 of
`dvd_transcoder.py`: append when the disc number equals the counter and the
unit index is positive; on a strictly larger disc number sort and seal the
in-progress group, then start a new one; always reassign the counter.  (A
file whose disc number is below the counter only reassigns the counter.) -/
def stepSeg (st : BuildState) (p : String) (d v : Int) : BuildState :=
  let st1 :=
    if d = st.last then
      if 0 < v then { st with voblist := st.voblist ++ [p] } else st
    else st
  let st2 :=
    if st.last < d then
      { st1 with
        disclist := st1.disclist ++ [pySort st1.voblist]
        voblist := if 0 < v then [p] else [] }
    else st1
  { st2 with last := d }

/-- The walk-loop body for one walked file: non-candidates are skipped. -/
def stepOk (st : BuildState) (df : String × String) : BuildState :=
  match parseVts df.2 with
  | .seg d v => stepSeg st (mkPath df.1 df.2) d v
  | _ => st

/-- One walk-loop step; a `valueError` parse is the uncaught `ValueError`. -/
def stepVob (st : BuildState) (df : String × String) : Except Unit BuildState :=
  if parseVts df.2 = ParseResult.valueError then .error () else .ok (stepOk st df)

/-- The whole walk of `py_move_vobs_to_local`, over the flattened list of
`(dir_name, fname)` pairs the walk yields, in walk order. -/
def pyMoveWalk (walk : List (String × String)) : Except Unit BuildState :=
  walk.foldlM stepVob initState

/-- Lines 780-785: `has_vobs` is the emptiness test of the final in-progress
`input_voblist`; when nonempty that group is sorted and sealed. -/
def pyFinalize (st : BuildState) : Bool × List (List String) :=
  if st.voblist = [] then (false, st.disclist)
  else (true, st.disclist ++ [pySort st.voblist])

/-- The catalog builder: the `(has_vobs, input_disclist)` pair produced by
the walk-and-finalize portion of `py_move_vobs_to_local`, or `Except.error`
for an uncaught `ValueError`. -/
def pyBuildCatalog (walk : List (String × String)) :
    Except Unit (Bool × List (List String)) :=
  (pyMoveWalk walk).map pyFinalize

/-! ### The byte-copy portion of `py_move_vobs_to_local` (lines 796-807)

Each source segment path is mapped by the filesystem oracle to what its
`open`/`read` calls deliver: `openFail` is an `OSError` raised by
`open(vob, "rb")` itself — which sits outside the `try`, so it propagates
uncaught — while `chunks cs readFail` delivers the chunks `cs` from
`src.read(1024*1024)` and then, if `readFail`, raises `OSError` from a read,
which the `except OSError` handler turns into a logged skip with
`errors = True`. -/

inductive ReadOutcome where
  | openFail
  | chunks (cs : List (List Nat)) (readFail : Bool)

/-- The double copy loop: bytes written to the single destination file, and
the `errors` flag; `Except.error` is the uncaught `OSError` from `open`. -/
def pyMergeBytes (readVob : String → ReadOutcome)
    (disclist : List (List String)) : Except Unit (List Nat × Bool) :=
  disclist.foldlM
    (fun acc disc =>
      disc.foldlM
        (fun acc vob =>
          match readVob vob with
          | .openFail => .error ()
          | .chunks cs rf => .ok (acc.1 ++ cs.flatten, acc.2 || rf))
        acc)
    ([], false)

/-! ### The per-image controller of `main` for mode 3 (lines 332-483)

The collaborators' behavior for one ISO is an `IsoEnv`: whether `os.mkdir`
of the fresh mount point raises `PermissionError` inside `mount_image`
(lines 534-542, which calls `sys.exit(1)`), the mount command's return code,
and the `(has_vobs, errors)` results of `py_move_vobs_to_local` and
`concat_transcode_vobs`.  The observable actions are recorded as events. -/

structure IsoEnv where
  mkdirPerm : Bool
  mountRet : Int
  hasVobs : Bool
  moveErrors : Bool
  concatErrors : Bool
deriving DecidableEq, Repr

inductive CEv where
  /-- `sys.exit(1)` reached (process terminates). -/
  | procExit
  /-- "Mounting failed" logged, loop `continue`s to the next ISO. -/
  | mountFailMsg
  /-- "ISO mounted at ..." logged: the image is now mounted. -/
  | mounted
  /-- "No VOBs found" logged, loop `continue`s to the next ISO. -/
  | noVobsMsg
  /-- `concat_transcode_vobs` invoked. -/
  | transcodeRun
  /-- `cleanup` invoked: temporary files/cat-lists removed, image unmounted. -/
  | cleaned
deriving DecidableEq, Repr

/-- One iteration of the `for iso in process_files` loop in mode 3 on
Linux/macOS: `(events, success, exited)`, where `success` means the ISO is
removed from `left_to_process` and `exited` that `sys.exit` terminated the
whole process. -/
def processIsoMode3 (e : IsoEnv) : List CEv × Bool × Bool :=
  if e.mkdirPerm then ([CEv.procExit], false, true)
  else if e.mountRet ≠ 0 then ([CEv.mountFailMsg], false, false)
  else if !e.hasVobs then ([CEv.mounted, CEv.noVobsMsg], false, false)
  else ([CEv.mounted, CEv.transcodeRun, CEv.cleaned],
    !e.moveErrors && !e.concatErrors, false)

/-- The batch loop over the sorted ISO list: each ISO is processed in turn
until (if ever) `sys.exit` fires, which abandons the rest of the batch. -/
def processBatch : List (String × IsoEnv) → List (String × List CEv)
  | [] => []
  | (i, e) :: rest =>
    let r := processIsoMode3 e
    if r.2.2 then [(i, r.1)] else (i, r.1) :: processBatch rest

/-! ### String helpers for `concat_transcode_vobs` / `ffmpeg_concatenate_vobs` -/

/-- Python `sub in s` (substring containment). -/
def containsSub (cs sub : List Char) : Bool :=
  if sub.isPrefixOf cs then true
  else
    match cs with
    | [] => false
    | _ :: t => containsSub t sub

def strContains (s sub : String) : Bool := containsSub s.data sub.data

/-- Replacement loop for a nonempty pattern, structurally recursive on a
fuel bounded below by the length of the string (each step consumes at least
one character, so the fuel never runs out). -/
def pyReplaceFuel (pat rep : List Char) : Nat → List Char → List Char
  | 0, _ => []
  | fuel + 1, s =>
    if pat.isPrefixOf s then
      rep ++ pyReplaceFuel pat rep fuel (s.drop pat.length)
    else
      match s with
      | [] => []
      | c :: t => c :: pyReplaceFuel pat rep fuel t

/-- Python `s.replace(pat, rep)`: replace every non-overlapping occurrence
left to right; an empty pattern inserts `rep` around every character. -/
def pyReplaceChars (pat rep s : List Char) : List Char :=
  if pat = [] then rep ++ s.flatMap (fun c => c :: rep)
  else pyReplaceFuel pat rep s.length s

def pyReplaceStr (s pat rep : String) : String :=
  (pyReplaceChars pat.data rep.data s.data).asString

/-- `os.path.basename` on POSIX: everything after the last slash. -/
def pyBasename (p : String) : String :=
  ((splitChar '/' p.data).getLastD []).asString

/-- Index (from the front) of the last occurrence of `c`, if any. -/
def lastIndexOf (c : Char) (cs : List Char) : Option Nat :=
  (cs.foldl
    (fun (acc : Nat × Option Nat) x =>
      (acc.1 + 1, if x = c then some acc.1 else acc.2))
    (0, none)).2

/-- CPython `posixpath.splitext`: split off the extension at the last dot,
provided it comes after the last slash and the basename is not made of
leading dots only. -/
def pySplitextChars (cs : List Char) : List Char × List Char :=
  match lastIndexOf '.' cs with
  | none => (cs, [])
  | some di =>
    let si : Nat :=
      match lastIndexOf '/' cs with
      | none => 0
      | some k => k + 1
    if si ≤ di ∧ ((cs.drop si).take (di - si)).any (· ≠ '.') then
      (cs.take di, cs.drop di)
    else (cs, [])

/-- `os.path.splitext(p)[1]`. -/
def pyExt (p : String) : String := (pySplitextChars p.data).2.asString

/-- `os.path.abspath` on POSIX, with the working directory explicit. -/
def pyAbspath (cwd p : String) : String :=
  if p.data.headD ' ' = '/' then pyNormpath p
  else pyNormpath (cwd ++ "/" ++ p)

/-- The `output_path[-1] == os.sep` check both transcode functions perform. -/
def ensureSep (p : String) : String :=
  if p.data.getLastD ' ' = '/' then p else p ++ "/"

/-! ### `concat_transcode_vobs` (lines 810-910) and
`ffmpeg_concatenate_vobs` (lines 913-949)

The collaborators are a `TransEnv`: the working directory, the listing of
the `.VOBS` working directory, `os.path.exists`, the transcode engine's
return code per destination, and the probed source resolution (`none` when
no probe binary is configured or the probe invocation/parse failed, in
which case the `except` leaves the parameter string unchanged). -/

structure TransEnv where
  cwd : String
  listdir : List String
  pathExists : String → Bool
  ffmpegRet : String → Int
  probeRes : Option String

inductive TEv where
  /-- "...exists and overwrite is set to NO, destination will not be
  overwritten" logged; the engine is not invoked for this destination. -/
  | notOverwritten (dest : String)
  /-- The transcode engine invoked for this destination, with its status. -/
  | invoked (dest : String) (ret : Int)
deriving DecidableEq, Repr

/-- The resolution substitution both functions perform on the parameter
string before encoding: `transcode_string.replace("640x480", source_res)`
guarded by `"-s 640x480" in transcode_string`. -/
def substRes (env : TransEnv) (ts : String) : String :=
  match env.probeRes with
  | none => ts
  | some r => if strContains ts "-s 640x480" then pyReplaceStr ts "640x480" r else ts

/-- The `.vob` intermediates found by listing the working directory
(line 835-838: skip dotfiles, keep names ending in `.vob`). -/
def vobListing (env : TransEnv) (outDir : String) : List String :=
  env.listdir.filterMap fun v =>
    if !(['.'].isPrefixOf v.data) && ".vob".data.isSuffixOf v.data then
      some (outDir ++ v)
    else none

/-- The output directory with trailing separator, as both functions compute
it from their `output_path` argument. -/
def outDirSep (env : TransEnv) (outputPath0 : String) : String :=
  ensureSep (pyAbspath env.cwd outputPath0)

/-- The single-intermediate destination
`os.path.normpath(f"{output_path}{file_name.replace(extension, output_ext)}")`,
shared by the one-`.vob` branch of `concat_transcode_vobs` and by
`ffmpeg_concatenate_vobs`. -/
def singleDest (env : TransEnv) (filePath outputExt outputPath0 : String) :
    String :=
  pyNormpath (outDirSep env outputPath0 ++
    pyReplaceStr (pyBasename filePath) (pyExt filePath) outputExt)

/-- `concat_transcode_vobs`: returns the `errors` flag and the engine events.
The multi-intermediate branch reassigns `output_path` from its own previous
value on every iteration, and also reassigns `transcode_string` with the
substituted one. -/
def concatTranscodeVobs (env : TransEnv)
    (filePath ts outputExt outputPath0 : String) : Bool × List TEv :=
  let extension := pyExt filePath
  let fileName := pyBasename filePath
  let outputPath := outDirSep env outputPath0
  let outDir := outputPath ++ pyBasename filePath ++ ".VOBS/"
  let vobList := vobListing env outDir
  if vobList.length = 1 then
    let dest := singleDest env filePath outputExt outputPath0
    let ts1 := substRes env ts
    if env.pathExists dest && strContains ts1 " -n " then
      (false, [TEv.notOverwritten dest])
    else
      let r := env.ffmpegRet dest
      (!(r == 0), [TEv.invoked dest r])
  else
    let fin := vobList.foldl
      (fun (s : String × String × Bool × List TEv × Nat) _v =>
        let op := pyNormpath (s.1 ++ pyReplaceStr fileName extension "" ++
          "_" ++ toString s.2.2.2.2 ++ outputExt)
        let ts1 := substRes env s.2.1
        if env.pathExists op && strContains ts1 " -n " then
          (op, ts1, s.2.2.1, s.2.2.2.1 ++ [TEv.notOverwritten op], s.2.2.2.2 + 1)
        else
          let r := env.ffmpegRet op
          (op, ts1, s.2.2.1 || !(r == 0), s.2.2.2.1 ++ [TEv.invoked op r],
            s.2.2.2.2 + 1))
      (outputPath, ts, false, [], 1)
    (fin.2.2.1, fin.2.2.2.1)

/-- `ffmpeg_concatenate_vobs` (mode 2's final concatenation): here the
overwrite policy is the boolean flag itself
(`if os.path.exists(output_path) and not overwrite`). -/
def ffmpegConcatenateVobs (env : TransEnv)
    (filePath outputExt outputPath0 : String) (overwrite : Bool) :
    Bool × List TEv :=
  let dest := singleDest env filePath outputExt outputPath0
  if env.pathExists dest && !overwrite then (false, [TEv.notOverwritten dest])
  else
    let r := env.ffmpegRet dest
    (!(r == 0), [TEv.invoked dest r])

/-! ### Provenance predicates and the walk invariant -/

/-- All segment paths held by a build state. -/
def statePaths (st : BuildState) : List String :=
  st.voblist ++ st.disclist.flatten

/-- `p` is the path of walked file `df`, which parses as a playable segment
(positive unit index). -/
def PlayableFrom (df : String × String) (p : String) : Prop :=
  ∃ d v, parseVts df.2 = ParseResult.seg d v ∧ 0 < v ∧ p = mkPath df.1 df.2

/-- `p` is the path of some walked file parsing as a playable segment of
disc `d`. -/
def PlayProv (walk : List (String × String)) (p : String) (d : Int) : Prop :=
  ∃ df ∈ walk, ∃ v, parseVts df.2 = ParseResult.seg d v ∧ 0 < v ∧
    p = mkPath df.1 df.2

/-- The disc numbers of the candidate files, in walk order. -/
def discsOf (walk : List (String × String)) : List Int :=
  walk.filterMap fun df =>
    match parseVts df.2 with
    | .seg d _ => some d
    | _ => none

/-- Invariant of the walk loop after processing the files `done`:
the counter is the last candidate disc number (1 before any); every
in-progress path is a playable segment of the counter's disc; the sealed
groups carry strictly increasing disc labels, all below the counter, and
each member is a playable segment of its group's disc; sealed groups are
lexicographically sorted; and every playable candidate seen so far is held
somewhere. -/
structure CatInv (done : List (String × String)) (st : BuildState) : Prop where
  last_eq : st.last = (discsOf done).getLastD 1
  vob_prov : ∀ p ∈ st.voblist, PlayProv done p st.last
  groups : ∃ lgs : List (Int × List String),
    st.disclist = lgs.map Prod.snd ∧
    (lgs.map Prod.fst ++ [st.last]).Chain' (· < ·) ∧
    ∀ lg ∈ lgs, ∀ p ∈ lg.2, PlayProv done p lg.1
  sorted : ∀ g ∈ st.disclist, g.Pairwise StrLeP
  complete : ∀ df ∈ done, ∀ d v, parseVts df.2 = ParseResult.seg d v → 0 < v →
    mkPath df.1 df.2 ∈ st.voblist ∨ ∃ g ∈ st.disclist, mkPath df.1 df.2 ∈ g

/-! ### The specification-side numeric-order predicate (for refutation) -/

/-- The filename component of a path. -/
def lastComp (p : String) : String :=
  ((splitChar '/' p.data).getLastD []).asString

/-- The numeric `sequenceNumber` a path's filename carries, if any. -/
def pathSeqNum (p : String) : Option Int :=
  match parseVts (lastComp p) with
  | .seg _ v => some v
  | _ => none

/-- Adjacent-pairs `≤` test on a list of integers (an executable form of
`List.Chain' (· ≤ ·)`). -/
def intChainLeB : List Int → Bool
  | [] => true
  | [_] => true
  | a :: b :: t => decide (a ≤ b) && intChainLeB (b :: t)

/-- Spec claim: a group's segments appear in ascending numeric
`sequenceNumber` order. -/
def groupSeqSorted (g : List String) : Bool :=
  intChainLeB (g.filterMap pathSeqNum)

/-- Spec claim, over the whole catalog. -/
def catalogSeqSorted (c : List (List String)) : Bool :=
  c.all groupSeqSorted

/-- Witness collaborators for the overwrite-skip theorem: one intermediate,
every destination already exists, no probe configured. -/
def envC9 : TransEnv :=
  ⟨"/", ["movie.vob"], fun _ => true, fun _ => 0, none⟩

/-- The H.264 parameter string `main` builds with overwrite disabled
(format table entry, CRF 20, plus the appended `" -n "`). -/
def tsC9 : String :=
  " -c:v libx264 -pix_fmt yuv420p -movflags faststart -b:v 3500000 -b:a 160000 -ar 48000 -s 640x480 -vf yadif -crf 20  -n "

/-! ## Theorems -/

/-- Claim C2 (evaluation of the code at the failing input): in mode 3, an
image that mounts cleanly (`mkdir` allowed, mount command returns 0) but
whose catalog reports no VOBs hits the `continue` on line 446 of
`dvd_transcoder.py`, which jumps past the `cleanup` call on line 466: the
trace records the mount but no cleanup/unmount, so the image stays
mounted.  (Modes 1 and 2 fall through to `cleanup` on the same condition.) -/
theorem mode3_no_vobs_skips_cleanup :
    (processIsoMode3 ⟨false, 0, false, false, false⟩).1 =
      [CEv.mounted, CEv.noVobsMsg] ∧
    CEv.mounted ∈ (processIsoMode3 ⟨false, 0, false, false, false⟩).1 ∧
    CEv.cleaned ∉ (processIsoMode3 ⟨false, 0, false, false, false⟩).1 := by
  refine ⟨rfl, ?_, ?_⟩ <;> decide

/-- Claim C3 counterexample: a `PermissionError` from `os.mkdir` of the
mount point makes `mount_image` call `sys.exit(1)` (lines 538-542), so the
first image's mount failure terminates the whole batch and the second image
is never processed. -/
theorem mkdir_permission_error_aborts_batch :
    processBatch [("a.iso", ⟨true, 0, true, false, false⟩),
        ("b.iso", ⟨false, 0, true, false, false⟩)] =
      [("a.iso", [CEv.procExit])] ∧
    "b.iso" ∉ (processBatch [("a.iso", ⟨true, 0, true, false, false⟩),
        ("b.iso", ⟨false, 0, true, false, false⟩)]).map Prod.fst := by
  refine ⟨rfl, ?_⟩
  decide

/-- When `os.mkdir` raises no `PermissionError`, a loop iteration never
reaches `sys.exit`. -/
theorem processIso_not_exited {e : IsoEnv} (h : e.mkdirPerm = false) :
    (processIsoMode3 e).2.2 = false := by
  simp only [processIsoMode3, h, Bool.false_eq_true, if_false]
  split
  · rfl
  · split <;> rfl

/-- Claim C3 amended: as long as no mount-point `mkdir` raises
`PermissionError`, every image in the batch is processed independently (the
batch is exactly the per-image traces, in order), and an image whose mount
command fails is merely logged and skipped. -/
theorem mount_command_failure_only_skips_image
    (batch : List (String × IsoEnv))
    (h : ∀ x ∈ batch, x.2.mkdirPerm = false) :
    processBatch batch = batch.map (fun x => (x.1, (processIsoMode3 x.2).1)) ∧
    ∀ x ∈ batch, x.2.mountRet ≠ 0 →
      (processIsoMode3 x.2).1 = [CEv.mountFailMsg] := by
  constructor
  · induction batch with
    | nil => rfl
    | cons a rest ih =>
      have ha : a.2.mkdirPerm = false := h a (by simp)
      have hrest := ih fun x hx => h x (by simp [hx])
      simp only [processBatch, processIso_not_exited ha, if_false,
        Bool.false_eq_true, List.map_cons]
      exact congrArg _ hrest
  · intro x hx hret
    have hx' : x.2.mkdirPerm = false := h x hx
    simp [processIsoMode3, hx', hret]

/-- Claim C3 amended, witness: a two-image batch whose first mount command
fails still processes both images. -/
theorem mount_failure_skip_witness :
    (∀ x ∈ [("a.iso", (⟨false, 1, true, false, false⟩ : IsoEnv)),
        ("b.iso", ⟨false, 0, true, false, false⟩)], x.2.mkdirPerm = false) ∧
    (processBatch [("a.iso", ⟨false, 1, true, false, false⟩),
        ("b.iso", ⟨false, 0, true, false, false⟩)] =
      [("a.iso", (⟨false, 1, true, false, false⟩ : IsoEnv)),
        ("b.iso", ⟨false, 0, true, false, false⟩)].map
        (fun x => (x.1, (processIsoMode3 x.2).1)) ∧
      ∀ x ∈ [("a.iso", (⟨false, 1, true, false, false⟩ : IsoEnv)),
        ("b.iso", ⟨false, 0, true, false, false⟩)], x.2.mountRet ≠ 0 →
        (processIsoMode3 x.2).1 = [CEv.mountFailMsg]) :=
  ⟨by decide, mount_command_failure_only_skips_image _ (by decide)⟩

/-- Claim C6 counterexample: `VTS_A_1.VOB` passes the prefix/extension
candidate test but its disc token is not numeric, so it does not match the
spec's `<PREFIX>_<discNumber>_<sequenceNumber>.<EXT>` pattern; instead of
being ignored, `int("A")` raises an uncaught `ValueError` and catalog
building errors out. -/
theorem nonnumeric_token_raises_value_error :
    pyMoveWalk [("/mnt/iso_volume_0/VIDEO_TS", "VTS_A_1.VOB")] =
      .error () ∧
    parseVts "VTS_A_1.VOB" = ParseResult.valueError := by
  exact ⟨rfl, by decide⟩

/-- A walked file failing the prefix/extension candidate test leaves the
loop state untouched and raises nothing. -/
theorem stepVob_noMatch {st : BuildState} {df : String × String}
    (h : parseVts df.2 = ParseResult.noMatch) : stepVob st df = .ok st := by
  simp [stepVob, stepOk, h]

/-- Claim C6 amended: a file that fails the `VTS`-prefix or `.VOB`-extension
candidate test is ignored without error, wherever it occurs in the walk:
the catalog built is the one of the walk without it. -/
theorem nonmatching_files_ignored
    (w1 w2 : List (String × String)) (df : String × String)
    (h : parseVts df.2 = ParseResult.noMatch) :
    pyBuildCatalog (w1 ++ df :: w2) = pyBuildCatalog (w1 ++ w2) := by
  unfold pyBuildCatalog pyMoveWalk
  rw [List.foldlM_append, List.foldlM_append]
  congr 1
  exact bind_congr fun st => by rw [List.foldlM_cons, stepVob_noMatch h]; rfl

/-- Claim C6 amended, witness: a non-candidate file in the middle of a walk
changes nothing. -/
theorem nonmatching_ignored_witness :
    parseVts "VIDEO_TS.IFO" = ParseResult.noMatch ∧
    pyBuildCatalog ([("/m", "VTS_01_1.VOB")] ++
        ("/m", "VIDEO_TS.IFO") :: [("/m", "VTS_01_2.VOB")]) =
      pyBuildCatalog ([("/m", "VTS_01_1.VOB")] ++ [("/m", "VTS_01_2.VOB")]) :=
  ⟨by decide, nonmatching_files_ignored _ _ _ (by decide)⟩

/-- Claim C7 (evaluation of the code at the failing input): for the walk
`VTS_01_1.VOB, VTS_02_0.VOB` the builder returns `has_vobs = False` — the
caller then logs "No VOBs found" and skips transcoding — although a
playable segment (`VTS_01_1`, unit index 1 > 0) was discovered and even
sealed into a group, because `has_vobs` only tests whether the final
in-progress group is empty. -/
theorem no_vobs_flag_ignores_sealed_groups :
    pyBuildCatalog [("/m/VIDEO_TS", "VTS_01_1.VOB"),
        ("/m/VIDEO_TS", "VTS_02_0.VOB")] =
      .ok (false, [["/m/VIDEO_TS/VTS_01_1.VOB"]]) ∧
    parseVts "VTS_01_1.VOB" = ParseResult.seg 1 1 := by
  exact ⟨rfl, by decide⟩

/-- Claim C8 (evaluation of the code at the failing input): `open(vob, "rb")`
sits outside the `try`, so a segment that cannot be opened raises an
uncaught `OSError` aborting the whole merge; only a failure during `read`
(second conjunct) is skipped with the error flag set, keeping the bytes of
the remaining segments. -/
theorem unreadable_segment_open_aborts_merge :
    pyMergeBytes
      (fun v => if v = "/m/a.VOB" then .chunks [[1, 2], [3]] false
        else if v = "/m/b.VOB" then .openFail
        else .chunks [[9]] false)
      [["/m/a.VOB", "/m/b.VOB", "/m/c.VOB"]] = .error () ∧
    pyMergeBytes
      (fun v => if v = "/m/a.VOB" then .chunks [[1, 2], [3]] false
        else if v = "/m/b.VOB" then .chunks [[7]] true
        else .chunks [[9]] false)
      [["/m/a.VOB", "/m/b.VOB", "/m/c.VOB"]] =
      .ok ([1, 2, 3, 7, 9], true) := by
  exact ⟨rfl, rfl⟩

/-- Claim C10 (evaluation of the code at the failing input): with one
intermediate the output lands at `<outdir>/<base><ext>` as specified, but
with two intermediates the loop reassigns `output_path` from its previous
value, so the second output path is the first output path with
`movie_2.mp4` glued on instead of `<outdir>/movie_2.mp4`. -/
theorem multi_output_paths_accumulate :
    (concatTranscodeVobs
        ⟨"/", ["a.vob"], fun _ => false, fun _ => 0, none⟩
        "/in/movie.iso" " -c:v libx264 -crf 20  -y " ".mp4" "/out").2 =
      [TEv.invoked "/out/movie.mp4" 0] ∧
    (concatTranscodeVobs
        ⟨"/", ["a.vob", "b.vob"], fun _ => false, fun _ => 0, none⟩
        "/in/movie.iso" " -c:v libx264 -crf 20  -y " ".mp4" "/out").2 =
      [TEv.invoked "/out/movie_1.mp4" 0,
        TEv.invoked "/out/movie_1.mp4movie_2.mp4" 0] ∧
    "/out/movie_1.mp4movie_2.mp4" ≠ "/out/movie_2.mp4" := by
  refine ⟨rfl, rfl, ?_⟩
  decide

/-- Claim C1 counterexample: sequence numbers 2 and 10 on the same disc.
The group is sealed in lexicographic path order, which puts sequence 10
before sequence 2: the produced catalog is not sorted by ascending numeric
`sequenceNumber`. -/
theorem catalog_group_not_numeric_sorted :
    pyBuildCatalog [("/mnt/d", "VTS_01_2.VOB"), ("/mnt/d", "VTS_01_10.VOB")] =
      .ok (true, [["/mnt/d/VTS_01_10.VOB", "/mnt/d/VTS_01_2.VOB"]]) ∧
    pathSeqNum "/mnt/d/VTS_01_10.VOB" = some 10 ∧
    pathSeqNum "/mnt/d/VTS_01_2.VOB" = some 2 ∧
    catalogSeqSorted [["/mnt/d/VTS_01_10.VOB", "/mnt/d/VTS_01_2.VOB"]] =
      false := by
  refine ⟨rfl, by decide, by decide, rfl⟩

/-- Claim C5 counterexample: when the walk yields disc 2 before disc 1, the
disc-1 playable file `VTS_01_1.VOB` is neither equal to nor greater than the
updated counter, so it is appended nowhere: it appears in no group of the
catalog (which even contains an empty sealed group). -/
theorem descending_disc_walk_drops_playable_file :
    pyBuildCatalog [("/m", "VTS_02_1.VOB"), ("/m", "VTS_01_1.VOB")] =
      .ok (true, [[], ["/m/VTS_02_1.VOB"]]) ∧
    parseVts "VTS_01_1.VOB" = ParseResult.seg 1 1 ∧
    ∀ g ∈ [([] : List String), ["/m/VTS_02_1.VOB"]],
      mkPath "/m" "VTS_01_1.VOB" ∉ g := by
  refine ⟨rfl, by decide, ?_⟩
  decide

/-- Claim C9: whenever the working directory holds exactly one intermediate,
the destination exists, and the (possibly resolution-substituted) parameter
string carries the `-n` no-overwrite flag, `concat_transcode_vobs` does not
invoke the transcode engine, reports the destination as not overwritten, and
returns with the error flag clear; `ffmpeg_concatenate_vobs` does the same
for its single destination when `overwrite` is off. -/
theorem existing_dest_skipped_without_error (env : TransEnv)
    (filePath ts outputExt outputPath0 : String)
    (hvl : (vobListing env (outDirSep env outputPath0 ++
      pyBasename filePath ++ ".VOBS/")).length = 1)
    (hn : strContains (substRes env ts) " -n " = true)
    (hex : env.pathExists (singleDest env filePath outputExt outputPath0) =
      true) :
    concatTranscodeVobs env filePath ts outputExt outputPath0 =
      (false,
        [TEv.notOverwritten (singleDest env filePath outputExt outputPath0)]) ∧
    ffmpegConcatenateVobs env filePath outputExt outputPath0 false =
      (false,
        [TEv.notOverwritten (singleDest env filePath outputExt outputPath0)]) := by
  constructor
  · simp only [concatTranscodeVobs, hvl, hex, hn]
    simp
  · simp only [ffmpegConcatenateVobs, hex]
    simp

/-- Claim C9 witness: concrete collaborators with one intermediate, an
existing destination, and the H.264-with-`-n` parameter string. -/
theorem existing_dest_skip_witness :
    ((vobListing envC9 (outDirSep envC9 "/out" ++
      pyBasename "/in/movie.iso" ++ ".VOBS/")).length = 1) ∧
    (strContains (substRes envC9 tsC9) " -n " = true) ∧
    (envC9.pathExists (singleDest envC9 "/in/movie.iso" ".mp4" "/out") =
      true) ∧
    (concatTranscodeVobs envC9 "/in/movie.iso" tsC9 ".mp4" "/out" =
      (false,
        [TEv.notOverwritten (singleDest envC9 "/in/movie.iso" ".mp4" "/out")]) ∧
    ffmpegConcatenateVobs envC9 "/in/movie.iso" ".mp4" "/out" false =
      (false,
        [TEv.notOverwritten (singleDest envC9 "/in/movie.iso" ".mp4" "/out")])) :=
  ⟨rfl, rfl, rfl,
    existing_dest_skipped_without_error envC9 "/in/movie.iso" tsC9 ".mp4" "/out"
      rfl rfl rfl⟩

/-- Membership in a Python-sorted list is membership in the original. -/
theorem mem_pySort {p : String} {l : List String} : p ∈ pySort l ↔ p ∈ l := by
  simp [pySort, List.mem_insertionSort]

/-- `stepSeg` when the file's disc number equals the counter. -/
theorem stepSeg_of_eq {st : BuildState} {d : Int} (p : String) (v : Int)
    (h : d = st.last) :
    stepSeg st p d v =
      ⟨if 0 < v then st.voblist ++ [p] else st.voblist, st.disclist, d⟩ := by
  simp only [stepSeg]
  rw [if_pos h, if_neg (by omega : ¬ st.last < d)]
  split <;> rfl

/-- `stepSeg` when the file's disc number exceeds the counter. -/
theorem stepSeg_of_lt {st : BuildState} {d : Int} (p : String) (v : Int)
    (h : st.last < d) :
    stepSeg st p d v =
      ⟨if 0 < v then [p] else [], st.disclist ++ [pySort st.voblist], d⟩ := by
  simp only [stepSeg]
  rw [if_neg (by omega : ¬ d = st.last), if_pos h]

/-- `stepSeg` when the file's disc number is below the counter: the file is
dropped and only the counter moves. -/
theorem stepSeg_of_gt {st : BuildState} {d : Int} (p : String) (v : Int)
    (h : d < st.last) :
    stepSeg st p d v = ⟨st.voblist, st.disclist, d⟩ := by
  simp only [stepSeg]
  rw [if_neg (by omega : ¬ d = st.last), if_neg (by omega : ¬ st.last < d)]

/-- Any path present after a step was present before or comes from the
stepped file, parsed as a playable segment. -/
theorem stepOk_paths_subset {st : BuildState} {df : String × String}
    {p : String} (hp : p ∈ statePaths (stepOk st df)) :
    p ∈ statePaths st ∨ PlayableFrom df p := by
  cases hpr : parseVts df.2 with
  | noMatch => simp only [stepOk, hpr] at hp; exact .inl hp
  | valueError => simp only [stepOk, hpr] at hp; exact .inl hp
  | seg d v =>
    simp only [stepOk, hpr] at hp
    rcases lt_trichotomy d st.last with hlt | heq | hgt
    · rw [stepSeg_of_gt _ _ hlt] at hp
      exact .inl hp
    · rw [stepSeg_of_eq _ _ heq] at hp
      by_cases hv : 0 < v
      · rw [if_pos hv] at hp
        simp only [statePaths] at hp
        rcases List.mem_append.mp hp with h1 | h2
        · rcases List.mem_append.mp h1 with ha | hb
          · exact .inl (List.mem_append.mpr (.inl ha))
          · exact .inr ⟨d, v, hpr, hv, List.mem_singleton.mp hb⟩
        · exact .inl (List.mem_append.mpr (.inr h2))
      · rw [if_neg hv] at hp
        exact .inl hp
    · rw [stepSeg_of_lt _ _ hgt] at hp
      by_cases hv : 0 < v
      · rw [if_pos hv] at hp
        simp only [statePaths] at hp
        rcases List.mem_append.mp hp with h1 | h2
        · exact .inr ⟨d, v, hpr, hv, List.mem_singleton.mp h1⟩
        · rw [List.flatten_append] at h2
          rcases List.mem_append.mp h2 with ha | hb
          · exact .inl (List.mem_append.mpr (.inr ha))
          · have hb' : p ∈ pySort st.voblist := by simpa using hb
            exact .inl (List.mem_append.mpr (.inl (mem_pySort.mp hb')))
      · rw [if_neg hv] at hp
        simp only [statePaths, List.nil_append] at hp
        rw [List.flatten_append] at hp
        rcases List.mem_append.mp hp with ha | hb
        · exact .inl (List.mem_append.mpr (.inr ha))
        · have hb' : p ∈ pySort st.voblist := by simpa using hb
          exact .inl (List.mem_append.mpr (.inl (mem_pySort.mp hb')))

/-- Any path present after folding the walk was present initially or comes
from some walked file parsed as a playable segment. -/
theorem foldl_stepOk_paths :
    ∀ (walk : List (String × String)) (st0 : BuildState) (p : String),
      p ∈ statePaths (walk.foldl stepOk st0) →
      p ∈ statePaths st0 ∨ ∃ df ∈ walk, PlayableFrom df p := by
  intro walk
  induction walk with
  | nil => exact fun st0 p hp => .inl hp
  | cons df ws ih =>
    intro st0 p hp
    rcases ih (stepOk st0 df) p hp with h | ⟨df', hmem, hpf⟩
    · rcases stepOk_paths_subset h with h' | hpf
      · exact .inl h'
      · exact .inr ⟨df, by simp, hpf⟩
    · exact .inr ⟨df', by simp [hmem], hpf⟩

/-- A successful `foldlM` run coincides with the pure fold. -/
theorem foldlM_stepVob_ok :
    ∀ (walk : List (String × String)) (st0 st : BuildState),
      walk.foldlM stepVob st0 = .ok st → walk.foldl stepOk st0 = st := by
  intro walk
  induction walk with
  | nil => exact fun st0 st h => Except.ok.inj h
  | cons df ws ih =>
    intro st0 st h
    rw [List.foldlM_cons] at h
    by_cases hv : parseVts df.2 = ParseResult.valueError
    · rw [stepVob, if_pos hv] at h
      exact absurd h (by simp [Bind.bind, Except.bind])
    · rw [stepVob, if_neg hv] at h
      exact ih _ _ h

/-- Claim C4: every path in every group of a successfully built catalog is
the path of a walked file whose parse has a positive `sequenceNumber`;
sequence-number-0 files (menu/control units) are never appended. -/
theorem groups_hold_only_playable_segments
    (walk : List (String × String)) (st : BuildState)
    (hok : pyMoveWalk walk = .ok st) :
    ∀ g ∈ (pyFinalize st).2, ∀ p ∈ g,
      ∃ df ∈ walk, ∃ d v, parseVts df.2 = ParseResult.seg d v ∧ 0 < v ∧
        p = mkPath df.1 df.2 := by
  intro g hg p hp
  have hfold : walk.foldl stepOk initState = st := foldlM_stepVob_ok _ _ _ hok
  have hpaths : p ∈ statePaths st := by
    unfold pyFinalize at hg
    split at hg
    · exact by simp [statePaths, List.mem_flatten]; right; exact ⟨g, hg, hp⟩
    · simp only [statePaths, List.mem_append]
      rcases List.mem_append.mp hg with hgl | hgl
      · exact .inr (List.mem_flatten.mpr ⟨g, hgl, hp⟩)
      · have : g = pySort st.voblist := by simpa using hgl
        exact .inl (mem_pySort.mp (this ▸ hp))
  rw [← hfold] at hpaths
  rcases foldl_stepOk_paths walk initState p hpaths with h0 | ⟨df, hdf, d, v, h1, h2, h3⟩
  · exact absurd h0 (by simp [statePaths, initState])
  · exact ⟨df, hdf, d, v, h1, h2, h3⟩

/-- Claim C4 witness: a walk containing a menu unit (`VTS_01_0.VOB`) and a
playable unit; the built catalog satisfies the provenance property. -/
theorem groups_playable_witness :
    pyMoveWalk [("/m", "VTS_01_0.VOB"), ("/m", "VTS_01_1.VOB")] =
      .ok ⟨["/m/VTS_01_1.VOB"], [], 1⟩ ∧
    ∀ g ∈ (pyFinalize ⟨["/m/VTS_01_1.VOB"], [], 1⟩).2, ∀ p ∈ g,
      ∃ df ∈ [("/m", "VTS_01_0.VOB"), ("/m", "VTS_01_1.VOB")],
        ∃ d v, parseVts df.2 = ParseResult.seg d v ∧ 0 < v ∧
          p = mkPath df.1 df.2 :=
  ⟨rfl, groups_hold_only_playable_segments _ _ rfl⟩

/-- The lexicographic comparison is total. -/
theorem lexLe_total : ∀ a b : List Char, lexLe a b = true ∨ lexLe b a = true := by
  intro a
  induction a with
  | nil => exact fun b => .inl rfl
  | cons x xs ih =>
    intro b
    cases b with
    | nil => exact .inr rfl
    | cons y ys =>
      by_cases hxy : x = y
      · subst hxy
        simp only [lexLe, if_pos rfl]
        exact ih ys
      · rcases lt_or_gt_of_ne hxy with h | h
        · exact .inl (by simp only [lexLe, if_neg hxy]; exact decide_eq_true h)
        · exact .inr
            (by simp only [lexLe, if_neg (Ne.symm hxy)]; exact decide_eq_true h)

/-- The lexicographic comparison is transitive. -/
theorem lexLe_trans :
    ∀ a b c : List Char,
      lexLe a b = true → lexLe b c = true → lexLe a c = true := by
  intro a
  induction a with
  | nil => intro b c _ _; rfl
  | cons x xs ih =>
    intro b c hab hbc
    cases b with
    | nil => exact absurd hab (by simp [lexLe])
    | cons y ys =>
      cases c with
      | nil => exact absurd hbc (by simp [lexLe])
      | cons z zs =>
        by_cases hxy : x = y
        · subst hxy
          simp only [lexLe, if_pos rfl] at hab
          by_cases hxz : x = z
          · subst hxz
            simp only [lexLe, if_pos rfl] at hbc ⊢
            exact ih ys zs hab hbc
          · simp only [lexLe, if_neg hxz] at hbc ⊢
            exact hbc
        · simp only [lexLe, if_neg hxy] at hab
          have hxy' : x < y := of_decide_eq_true hab
          by_cases hyz : y = z
          · subst hyz
            simp only [lexLe, if_neg hxy]
            exact decide_eq_true hxy'
          · simp only [lexLe, if_neg hyz] at hbc
            have hyz' : y < z := of_decide_eq_true hbc
            have hxz : x < z := lt_trans hxy' hyz'
            simp only [lexLe, if_neg (ne_of_lt hxz)]
            exact decide_eq_true hxz

instance : IsTotal String StrLeP :=
  ⟨fun a b => lexLe_total a.data b.data⟩

instance : IsTrans String StrLeP :=
  ⟨fun _ _ _ hab hbc => lexLe_trans _ _ _ hab hbc⟩

/-- A Python-sorted list is lexicographically sorted. -/
theorem pySort_pairwise (l : List String) : (pySort l).Pairwise StrLeP :=
  List.sorted_insertionSort StrLeP l

/-- Provenance is monotone in the walk. -/
theorem playProv_mono {done more : List (String × String)} {p : String}
    {d : Int} (h : PlayProv done p d) : PlayProv (done ++ more) p d := by
  obtain ⟨df, hdf, v, h1, h2, h3⟩ := h
  exact ⟨df, List.mem_append.mpr (.inl hdf), v, h1, h2, h3⟩

theorem discsOf_append (w1 w2 : List (String × String)) :
    discsOf (w1 ++ w2) = discsOf w1 ++ discsOf w2 :=
  List.filterMap_append _ _ _

theorem discsOf_single_seg {df : String × String} {d v : Int}
    (h : parseVts df.2 = ParseResult.seg d v) : discsOf [df] = [d] := by
  simp [discsOf, h]

theorem discsOf_single_nonSeg {df : String × String}
    (h : ∀ d v, parseVts df.2 ≠ ParseResult.seg d v) : discsOf [df] = [] := by
  unfold discsOf
  cases hpr : parseVts df.2 with
  | noMatch => simp [hpr]
  | valueError => simp [hpr]
  | seg d v => exact absurd hpr (h d v)

/-- The executable adjacent-pairs test implies `Chain'`. -/
theorem intChainLeB_chain' :
    ∀ l : List Int, intChainLeB l = true → l.Chain' (· ≤ ·) := by
  intro l
  induction l with
  | nil => exact fun _ => List.chain'_nil
  | cons a t ih =>
    cases t with
    | nil => exact fun _ => List.chain'_singleton a
    | cons b t2 =>
      intro h
      simp only [intChainLeB, Bool.and_eq_true, decide_eq_true_eq] at h
      exact List.chain'_cons.mpr ⟨h.1, ih (by simpa [intChainLeB] using h.2)⟩

/-- The invariant holds before the walk starts. -/
theorem catInv_init : CatInv [] initState := by
  refine ⟨rfl, ?_, ⟨[], rfl, ?_, ?_⟩, ?_, ?_⟩
  · intro p hp; exact absurd hp (List.not_mem_nil p)
  · simp
  · intro lg h; exact absurd h (List.not_mem_nil lg)
  · intro g hg; exact absurd hg (List.not_mem_nil g)
  · intro df h _ _ _; exact absurd h (List.not_mem_nil df)

/-- Extending the processed list with a non-candidate file preserves the
invariant without touching the state. -/
theorem catInv_extend_nonSeg {done : List (String × String)}
    {st : BuildState} {df : String × String}
    (h : ∀ d v, parseVts df.2 ≠ ParseResult.seg d v)
    (inv : CatInv done st) : CatInv (done ++ [df]) st := by
  have hd : discsOf (done ++ [df]) = discsOf done := by
    rw [discsOf_append, discsOf_single_nonSeg h, List.append_nil]
  obtain ⟨lgs, hdl, hch, hpv⟩ := inv.groups
  refine ⟨?_, ?_, ⟨lgs, hdl, hch, ?_⟩, inv.sorted, ?_⟩
  · rw [hd]; exact inv.last_eq
  · exact fun p hp => playProv_mono (inv.vob_prov p hp)
  · exact fun lg hlg p hp => playProv_mono (hpv lg hlg p hp)
  · intro df' hmem d' v' hp' hv'
    rcases List.mem_append.mp hmem with hin | hone
    · exact inv.complete df' hin d' v' hp' hv'
    · have he : df' = df := List.mem_singleton.mp hone
      exact absurd hp' (he ▸ h d' v')

/-- One walk step preserves the invariant, provided the file's disc number
(when it is a candidate) is not below the counter. -/
theorem catInv_step {done : List (String × String)} {st : BuildState}
    (df : String × String) (inv : CatInv done st)
    (hge : ∀ d v, parseVts df.2 = ParseResult.seg d v → st.last ≤ d) :
    CatInv (done ++ [df]) (stepOk st df) := by
  cases hpr : parseVts df.2 with
  | noMatch =>
    have hst : stepOk st df = st := by simp [stepOk, hpr]
    rw [hst]
    exact catInv_extend_nonSeg (by simp [hpr]) inv
  | valueError =>
    have hst : stepOk st df = st := by simp [stepOk, hpr]
    rw [hst]
    exact catInv_extend_nonSeg (by simp [hpr]) inv
  | seg d v =>
    have hdisc : discsOf (done ++ [df]) = discsOf done ++ [d] := by
      rw [discsOf_append, discsOf_single_seg hpr]
    have hstep : stepOk st df = stepSeg st (mkPath df.1 df.2) d v := by
      simp [stepOk, hpr]
    rcases eq_or_lt_of_le (hge d v hpr) with heq | hlt
    · -- the disc number equals the counter
      subst heq
      rw [hstep, stepSeg_of_eq _ _ rfl]
      obtain ⟨lgs, hdl, hch, hpv⟩ := inv.groups
      refine ⟨?_, ?_, ⟨lgs, hdl, hch, ?_⟩, inv.sorted, ?_⟩
      · rw [hdisc, List.getLastD_concat]
      · intro p hp
        by_cases hv : 0 < v
        · rw [if_pos hv] at hp
          rcases List.mem_append.mp hp with ha | hb
          · exact playProv_mono (inv.vob_prov p ha)
          · exact ⟨df, List.mem_append.mpr (.inr (by simp)), v, hpr, hv,
              List.mem_singleton.mp hb⟩
        · rw [if_neg hv] at hp
          exact playProv_mono (inv.vob_prov p hp)
      · exact fun lg hlg p hp => playProv_mono (hpv lg hlg p hp)
      · intro df' hmem d' v' hp' hv'
        rcases List.mem_append.mp hmem with hin | hone
        · rcases inv.complete df' hin d' v' hp' hv' with hL | hR
          · left
            by_cases hv : 0 < v
            · rw [if_pos hv]; exact List.mem_append.mpr (.inl hL)
            · rw [if_neg hv]; exact hL
          · right; exact hR
        · have he : df' = df := List.mem_singleton.mp hone
          subst he
          rw [hpr] at hp'
          obtain ⟨hd', hv2⟩ : d' = st.last ∧ v' = v := by
            cases hp'; exact ⟨rfl, rfl⟩
          subst hv2
          left
          rw [if_pos hv']
          exact List.mem_append.mpr (.inr (by simp))
    · -- the disc number exceeds the counter: seal the group
      rw [hstep, stepSeg_of_lt _ _ hlt]
      obtain ⟨lgs, hdl, hch, hpv⟩ := inv.groups
      refine ⟨?_, ?_,
        ⟨lgs ++ [(st.last, pySort st.voblist)], ?_, ?_, ?_⟩, ?_, ?_⟩
      · rw [hdisc, List.getLastD_concat]
      · intro p hp
        by_cases hv : 0 < v
        · rw [if_pos hv] at hp
          exact ⟨df, List.mem_append.mpr (.inr (by simp)), v, hpr, hv,
            List.mem_singleton.mp hp⟩
        · rw [if_neg hv] at hp
          exact absurd hp (List.not_mem_nil p)
      · rw [List.map_append, hdl]; rfl
      · rw [List.map_append]
        refine List.chain'_append.mpr ⟨hch, List.chain'_singleton d, ?_⟩
        intro x hx y hy
        have hx' : x = st.last := by
          simp only [List.map_cons, List.map_nil] at hx
          rw [List.getLast?_concat] at hx
          exact (Option.mem_some_iff.mp hx).symm
        have hy' : y = d := by
          simp only [List.head?_cons, Option.mem_some_iff] at hy
          exact hy.symm
        rw [hx', hy']; exact hlt
      · intro lg hlg p hp
        rcases List.mem_append.mp hlg with h1 | h2
        · exact playProv_mono (hpv lg h1 p hp)
        · have he : lg = (st.last, pySort st.voblist) := List.mem_singleton.mp h2
          subst he
          exact playProv_mono (inv.vob_prov p (mem_pySort.mp hp))
      · intro g hg
        rcases List.mem_append.mp hg with h1 | h2
        · exact inv.sorted g h1
        · have he : g = pySort st.voblist := List.mem_singleton.mp h2
          subst he
          exact pySort_pairwise _
      · intro df' hmem d' v' hp' hv'
        rcases List.mem_append.mp hmem with hin | hone
        · rcases inv.complete df' hin d' v' hp' hv' with hL | ⟨g, hg, hgp⟩
          · right
            exact ⟨pySort st.voblist, List.mem_append.mpr (.inr (by simp)),
              mem_pySort.mpr hL⟩
          · right
            exact ⟨g, List.mem_append.mpr (.inl hg), hgp⟩
        · have he : df' = df := List.mem_singleton.mp hone
          subst he
          rw [hpr] at hp'
          obtain ⟨hd', hv2⟩ : d' = d ∧ v' = v := by
            cases hp'; exact ⟨rfl, rfl⟩
          subst hv2
          left
          rw [if_pos hv']
          exact List.mem_singleton.mpr rfl

/-- Folding a suffix of the walk preserves the invariant, given the
discs-at-least-1 and nondecreasing-discs side conditions. -/
theorem catInv_fold :
    ∀ (rest done : List (String × String)) (st : BuildState),
      CatInv done st →
      (∀ d ∈ discsOf rest, 1 ≤ d) →
      (discsOf done ++ discsOf rest).Chain' (· ≤ ·) →
      CatInv (done ++ rest) (rest.foldl stepOk st) := by
  intro rest
  induction rest with
  | nil => intro done st inv _ _; simpa using inv
  | cons df ws ih =>
    intro done st inv h1 hch
    rw [List.foldl_cons]
    have hconswalk : discsOf (df :: ws) = discsOf [df] ++ discsOf ws := by
      rw [← discsOf_append]; rfl
    have hstep : CatInv (done ++ [df]) (stepOk st df) := by
      apply catInv_step df inv
      intro d v hpr
      have hd : discsOf (df :: ws) = d :: discsOf ws := by
        rw [hconswalk, discsOf_single_seg hpr]; rfl
      rw [hd] at hch
      obtain ⟨_, _, hlink⟩ := List.chain'_append.mp hch
      rw [inv.last_eq, List.getLastD_eq_getLast?]
      cases hgl : (discsOf done).getLast? with
      | none =>
        have : d ∈ discsOf (df :: ws) := by rw [hd]; exact List.mem_cons_self d _
        exact h1 d this
      | some x =>
        have hx : x ≤ d := hlink x (by rw [hgl]; rfl) d rfl
        simpa using hx
    have h1' : ∀ d ∈ discsOf ws, 1 ≤ d := by
      intro d hd
      apply h1
      rw [hconswalk]
      exact List.mem_append.mpr (.inr hd)
    have hch' : (discsOf (done ++ [df]) ++ discsOf ws).Chain' (· ≤ ·) := by
      rw [discsOf_append, List.append_assoc, ← discsOf_append]
      exact hch
    have := ih (done ++ [df]) (stepOk st df) hstep h1' hch'
    simpa using this

/-- Sealing the final in-progress group preserves the labelled-groups view:
the finalized catalog is a labelled list with strictly increasing disc
labels, playable provenance per member, and lexicographically sorted
groups. -/
theorem catInv_finalize {walk : List (String × String)} {st : BuildState}
    (inv : CatInv walk st) :
    ∃ lgs : List (Int × List String),
      (pyFinalize st).2 = lgs.map Prod.snd ∧
      (lgs.map Prod.fst).Chain' (· < ·) ∧
      (∀ lg ∈ lgs, ∀ p ∈ lg.2, PlayProv walk p lg.1) ∧
      (∀ g ∈ (pyFinalize st).2, g.Pairwise StrLeP) := by
  obtain ⟨lgs, hdl, hch, hpv⟩ := inv.groups
  by_cases hvl : st.voblist = []
  · refine ⟨lgs, ?_, (List.chain'_append.mp hch).1, hpv, ?_⟩
    · simp [pyFinalize, hvl, hdl]
    · intro g hg
      apply inv.sorted
      simpa [pyFinalize, hvl] using hg
  · refine ⟨lgs ++ [(st.last, pySort st.voblist)], ?_, ?_, ?_, ?_⟩
    · simp only [pyFinalize, if_neg hvl, List.map_append, hdl]; rfl
    · rw [List.map_append]; exact hch
    · intro lg hlg p hp
      rcases List.mem_append.mp hlg with h1 | h2
      · exact hpv lg h1 p hp
      · have he : lg = (st.last, pySort st.voblist) := List.mem_singleton.mp h2
        subst he
        exact inv.vob_prov p (mem_pySort.mp hp)
    · intro g hg
      simp only [pyFinalize, if_neg hvl] at hg
      rcases List.mem_append.mp hg with h1 | h2
      · exact inv.sorted g h1
      · have he : g = pySort st.voblist := List.mem_singleton.mp h2
        subst he
        exact pySort_pairwise _

/-- Strictly increasing labels yield the pairwise ascending-disc property of
the label-erased groups. -/
theorem labeled_pairwise {walk : List (String × String)}
    (lgs : List (Int × List String))
    (hch : (lgs.map Prod.fst).Chain' (· < ·))
    (hpv : ∀ lg ∈ lgs, ∀ p ∈ lg.2, PlayProv walk p lg.1) :
    (lgs.map Prod.snd).Pairwise (fun g h =>
      ∀ p ∈ g, ∀ q ∈ h, ∃ dp dq,
        PlayProv walk p dp ∧ PlayProv walk q dq ∧ dp < dq) := by
  have hpw : (lgs.map Prod.fst).Pairwise (· < ·) :=
    List.chain'_iff_pairwise.mp hch
  have hpw2 : lgs.Pairwise (fun a b => a.1 < b.1) := List.pairwise_map.mp hpw
  rw [List.pairwise_map]
  refine List.Pairwise.imp_of_mem ?_ hpw2
  intro a b ha hb hlt p hp q hq
  exact ⟨a.1, b.1, hpv a ha p hp, hpv b hb q hq, hlt⟩

/-- A walk with no `ValueError` file runs to completion as the pure fold. -/
theorem foldlM_stepVob_eq_ok :
    ∀ (walk : List (String × String)) (st0 : BuildState),
      (∀ df ∈ walk, parseVts df.2 ≠ ParseResult.valueError) →
      walk.foldlM stepVob st0 = .ok (walk.foldl stepOk st0) := by
  intro walk
  induction walk with
  | nil => intro st0 _; rfl
  | cons df ws ih =>
    intro st0 h
    rw [List.foldlM_cons, stepVob, if_neg (h df (by simp))]
    exact ih (stepOk st0 df) fun x hx => h x (by simp [hx])

/-- Claim C1 amended: for a walk whose candidate files all have numeric
tokens and disc numbers at least 1 arriving in nondecreasing order, the
catalog is built without error, every group is sorted in ascending
lexicographic path order (the numeric `sequenceNumber` order only when path
order agrees with it, e.g. single-digit sequence tokens), and the groups
carry strictly ascending disc numbers. -/
theorem catalog_lex_sorted_discs_ascending (walk : List (String × String))
    (h1 : ∀ df ∈ walk, parseVts df.2 ≠ ParseResult.valueError)
    (h2 : ∀ d ∈ discsOf walk, 1 ≤ d)
    (h3 : intChainLeB (discsOf walk) = true) :
    ∃ st, pyMoveWalk walk = .ok st ∧
      (∀ g ∈ (pyFinalize st).2, g.Pairwise StrLeP) ∧
      (pyFinalize st).2.Pairwise (fun g h =>
        ∀ p ∈ g, ∀ q ∈ h, ∃ dp dq,
          PlayProv walk p dp ∧ PlayProv walk q dq ∧ dp < dq) := by
  refine ⟨walk.foldl stepOk initState,
    foldlM_stepVob_eq_ok walk initState h1, ?_, ?_⟩
  all_goals
    have inv : CatInv walk (walk.foldl stepOk initState) := by
      have := catInv_fold walk [] initState catInv_init h2
        (by simpa using intChainLeB_chain' _ h3)
      simpa using this
  · exact (catInv_finalize inv).choose_spec.2.2.2
  · obtain ⟨lgs, hfin, hch, hpv, _⟩ := catInv_finalize inv
    rw [hfin]
    exact labeled_pairwise lgs hch hpv

/-- Claim C1 amended, witness: a two-disc walk in walk order. -/
theorem catalog_sorted_witness :
    (∀ df ∈ [("/m/VIDEO_TS", "VTS_01_1.VOB"), ("/m/VIDEO_TS", "VTS_01_2.VOB"),
        ("/m/VIDEO_TS", "VTS_02_1.VOB")],
      parseVts df.2 ≠ ParseResult.valueError) ∧
    (∀ d ∈ discsOf [("/m/VIDEO_TS", "VTS_01_1.VOB"),
        ("/m/VIDEO_TS", "VTS_01_2.VOB"), ("/m/VIDEO_TS", "VTS_02_1.VOB")],
      1 ≤ d) ∧
    (intChainLeB (discsOf [("/m/VIDEO_TS", "VTS_01_1.VOB"),
        ("/m/VIDEO_TS", "VTS_01_2.VOB"), ("/m/VIDEO_TS", "VTS_02_1.VOB")]) =
      true) ∧
    (∃ st, pyMoveWalk [("/m/VIDEO_TS", "VTS_01_1.VOB"),
        ("/m/VIDEO_TS", "VTS_01_2.VOB"), ("/m/VIDEO_TS", "VTS_02_1.VOB")] =
        .ok st ∧
      (∀ g ∈ (pyFinalize st).2, g.Pairwise StrLeP) ∧
      (pyFinalize st).2.Pairwise (fun g h =>
        ∀ p ∈ g, ∀ q ∈ h, ∃ dp dq,
          PlayProv [("/m/VIDEO_TS", "VTS_01_1.VOB"),
            ("/m/VIDEO_TS", "VTS_01_2.VOB"),
            ("/m/VIDEO_TS", "VTS_02_1.VOB")] p dp ∧
          PlayProv [("/m/VIDEO_TS", "VTS_01_1.VOB"),
            ("/m/VIDEO_TS", "VTS_01_2.VOB"),
            ("/m/VIDEO_TS", "VTS_02_1.VOB")] q dq ∧ dp < dq)) :=
  ⟨by decide, by decide, rfl,
    catalog_lex_sorted_discs_ascending _ (by decide) (by decide) rfl⟩

/-- Claim C5 amended: for a walk whose candidate files all have numeric
tokens and disc numbers at least 1 arriving in nondecreasing order, every
playable candidate file (positive `sequenceNumber`) ends up in some group of
the catalog. -/
theorem ordered_walk_appends_every_playable (walk : List (String × String))
    (h1 : ∀ df ∈ walk, parseVts df.2 ≠ ParseResult.valueError)
    (h2 : ∀ d ∈ discsOf walk, 1 ≤ d)
    (h3 : intChainLeB (discsOf walk) = true) :
    ∃ st, pyMoveWalk walk = .ok st ∧
      ∀ df ∈ walk, ∀ d v, parseVts df.2 = ParseResult.seg d v → 0 < v →
        ∃ g ∈ (pyFinalize st).2, mkPath df.1 df.2 ∈ g := by
  refine ⟨walk.foldl stepOk initState,
    foldlM_stepVob_eq_ok walk initState h1, ?_⟩
  have inv : CatInv walk (walk.foldl stepOk initState) := by
    have := catInv_fold walk [] initState catInv_init h2
      (by simpa using intChainLeB_chain' _ h3)
    simpa using this
  intro df hdf d v hpr hv
  rcases inv.complete df hdf d v hpr hv with hL | ⟨g, hg, hgp⟩
  · have hne : (walk.foldl stepOk initState).voblist ≠ [] := by
      intro he
      rw [he] at hL
      exact absurd hL (List.not_mem_nil _)
    exact ⟨pySort (walk.foldl stepOk initState).voblist,
      by simp [pyFinalize, hne], mem_pySort.mpr hL⟩
  · refine ⟨g, ?_, hgp⟩
    by_cases hvl : (walk.foldl stepOk initState).voblist = []
    · simpa [pyFinalize, hvl] using hg
    · simp only [pyFinalize, if_neg hvl]
      exact List.mem_append.mpr (.inl hg)

/-- Claim C5 amended, witness: a nondecreasing walk with a menu unit; both
playable files land in groups. -/
theorem every_playable_appended_witness :
    (∀ df ∈ [("/m", "VTS_01_0.VOB"), ("/m", "VTS_01_1.VOB"),
        ("/m", "VTS_02_1.VOB")],
      parseVts df.2 ≠ ParseResult.valueError) ∧
    (∀ d ∈ discsOf [("/m", "VTS_01_0.VOB"), ("/m", "VTS_01_1.VOB"),
        ("/m", "VTS_02_1.VOB")], 1 ≤ d) ∧
    (intChainLeB (discsOf [("/m", "VTS_01_0.VOB"), ("/m", "VTS_01_1.VOB"),
        ("/m", "VTS_02_1.VOB")]) = true) ∧
    (∃ st, pyMoveWalk [("/m", "VTS_01_0.VOB"), ("/m", "VTS_01_1.VOB"),
        ("/m", "VTS_02_1.VOB")] = .ok st ∧
      ∀ df ∈ [("/m", "VTS_01_0.VOB"), ("/m", "VTS_01_1.VOB"),
          ("/m", "VTS_02_1.VOB")],
        ∀ d v, parseVts df.2 = ParseResult.seg d v → 0 < v →
          ∃ g ∈ (pyFinalize st).2, mkPath df.1 df.2 ∈ g) :=
  ⟨by decide, by decide, rfl,
    ordered_walk_appends_every_playable _ (by decide) (by decide) rfl⟩

end DVDT
